import Mathlib

/-!
Shallow embedding of `python_examples/dpd_fast_module.py` (dissipative particle
dynamics module, fast version) over the real numbers, together with proofs of
the specified properties of `force`, `lowe`, `shardlow` and `p_approx`.

Floating-point arithmetic is modelled by exact real arithmetic; `np.rint`
(round half to even) is modelled exactly, including its tie-breaking rule.
-/

namespace DpdFast

noncomputable section

open scoped Classical

/-- A 3-vector, one row of an `n x 3` NumPy array. -/
abbrev Vec3 := Fin 3 → ℝ

/-- `np.rint x`: round to the nearest integer, ties to the nearest even
integer (IEEE round-half-even, which NumPy uses). -/
def rint (x : ℝ) : ℤ :=
  if x - (⌊x⌋ : ℝ) < 1 / 2 then ⌊x⌋
  else if 1 / 2 < x - (⌊x⌋ : ℝ) then ⌊x⌋ + 1
  else if Even ⌊x⌋ then ⌊x⌋ else ⌊x⌋ + 1

/-- `np.dot` of two 3-vectors. -/
def dot (u v : Vec3) : ℝ := ∑ c, u c * v c

/-- `class PotentialType`: composite accumulator of potential, virial and
Laplacian. -/
structure PotentialType where
  pot : ℝ
  vir : ℝ
  lap : ℝ

/-- `PotentialType.__add__`: componentwise addition. -/
instance : Add PotentialType :=
  ⟨fun x y => ⟨x.pot + y.pot, x.vir + y.vir, x.lap + y.lap⟩⟩

/-- `rij = rij - np.rint(rij); rij = rij * box`: the minimum-image separation
vector of particles `i` and `j` (computed in the loop of `force` for `j > i`),
in sigma units. -/
def wrapped (box : ℝ) {n : ℕ} (r : Fin n → Vec3) (i j : Fin n) : Vec3 :=
  fun c => (r i c - r j c - (rint (r i c - r j c) : ℝ)) * box

/-- `rij_sq = np.sum(rij**2)`: squared separation of the pair `(i,j)`. -/
def rijSq (box : ℝ) {n : ℕ} (r : Fin n → Vec3) (i j : Fin n) : ℝ :=
  ∑ c, (wrapped box r i j c) ^ 2

/-- `rij_mag = np.sqrt(rij_sq)`: separation of the pair `(i,j)`. -/
def rijMag (box : ℝ) {n : ℕ} (r : Fin n → Vec3) (i j : Fin n) : ℝ :=
  Real.sqrt (rijSq box r i j)

/-- `rij_hat = rij / rij_mag`: unit separation vector of the pair `(i,j)`. -/
def rijHat (box : ℝ) {n : ℕ} (r : Fin n → Vec3) (i j : Fin n) : Vec3 :=
  fun c => wrapped box r i j c / rijMag box r i j

/-- `in_range = rij_sq < 1.0`: the cutoff flag of the pair `(i,j)`. -/
def inRange (box : ℝ) {n : ℕ} (r : Fin n → Vec3) (i j : Fin n) : Prop :=
  rijSq box r i j < 1

/-- `wij = np.where(in_range, 1.0-rij_mag, 0.0)`: weight function of the
pair `(i,j)`, masked outside the cutoff. -/
def wij (box : ℝ) {n : ℕ} (r : Fin n → Vec3) (i j : Fin n) : ℝ :=
  if inRange box r i j then 1 - rijMag box r i j else 0

/-- `pot = 0.5 * wij**2`: pair potential. -/
def pairPot (box : ℝ) {n : ℕ} (r : Fin n → Vec3) (i j : Fin n) : ℝ :=
  0.5 * (wij box r i j) ^ 2

/-- `vir = wij * rij_mag`: pair virial. -/
def pairVir (box : ℝ) {n : ℕ} (r : Fin n → Vec3) (i j : Fin n) : ℝ :=
  wij box r i j * rijMag box r i j

/-- `lap = 3.0-2.0/rij_mag`: pair Laplacian term.  Note that in the source
this expression is NOT masked by `in_range` (unlike `wij`), so it is summed
over every pair `j > i`. -/
def pairLap (box : ℝ) {n : ℕ} (r : Fin n → Vec3) (i j : Fin n) : ℝ :=
  3 - 2 / rijMag box r i j

/-- `fij = wij * rij_hat`: pair force (before scaling by `a`). -/
def fij (box : ℝ) {n : ℕ} (r : Fin n → Vec3) (i j : Fin n) : Vec3 :=
  fun c => wij box r i j * rijHat box r i j c

/-- Accumulated `sum(pot)` over the loop `for i in range(n-1)` and `j > i`. -/
def potSum (box : ℝ) {n : ℕ} (r : Fin n → Vec3) : ℝ :=
  ∑ i : Fin n, ∑ j ∈ Finset.univ.filter (fun j => i < j), pairPot box r i j

/-- Accumulated `sum(vir)` over the loop. -/
def virSum (box : ℝ) {n : ℕ} (r : Fin n → Vec3) : ℝ :=
  ∑ i : Fin n, ∑ j ∈ Finset.univ.filter (fun j => i < j), pairVir box r i j

/-- Accumulated `sum(lap)` over the loop (all pairs `j > i`, no cutoff mask). -/
def lapSum (box : ℝ) {n : ℕ} (r : Fin n → Vec3) : ℝ :=
  ∑ i : Fin n, ∑ j ∈ Finset.univ.filter (fun j => i < j), pairLap box r i j

/-- The scaled `total` returned by `force`:
`total.pot*a`, `total.vir*a/3.0`, `total.lap*a*2.0`. -/
def forceTotal (box a : ℝ) {n : ℕ} (r : Fin n → Vec3) : PotentialType :=
  ⟨potSum box r * a, virSum box r * a / 3, lapSum box r * a * 2⟩

/-- The force array `f` returned by `force`: the loop accumulates
`f[i,:] += np.sum(fij,axis=0)` over `j > i` and `f[i+1:,:] -= fij`,
and finally scales `f = f * a`.  Net accumulation for particle `k`. -/
def forceArr (box a : ℝ) {n : ℕ} (r : Fin n → Vec3) : Fin n → Vec3 :=
  fun k c =>
    ((∑ j ∈ Finset.univ.filter (fun j => k < j), fij box r k j c) -
      ∑ i ∈ Finset.univ.filter (fun i => i < k), fij box r i k c) * a

/-- The (scaled) contribution of the pair `{k, l}` to particle `k`'s force:
`+fij k l` when `k < l` (added via `f[i,:] += ...`), `-fij l k` when `l < k`
(subtracted via `f[i+1:,:] -= fij`), and zero when `k = l`. -/
def fcontrib (box : ℝ) {n : ℕ} (r : Fin n → Vec3) (k l : Fin n) : Vec3 :=
  if k < l then fij box r k l
  else if l < k then (fun c => -(fij box r l k c))
  else (fun _ => 0)

/-- One element `(i,j,rij_mag[...],rij_hat[...])` of the `pairs` list. -/
@[ext]
structure PairRecord (n : ℕ) where
  i : Fin n
  j : Fin n
  rij_mag : ℝ
  rij_hat : Vec3

/-- The `pairs` list built by `force`: for each `i` in ascending order, the
records for the in-range `j` in `arange(i+1,n)` in ascending order. -/
def pairsList (box : ℝ) {n : ℕ} (r : Fin n → Vec3) : List (PairRecord n) :=
  (List.finRange n).flatMap fun i =>
    ((List.finRange n).filter fun j => decide (i < j ∧ rijSq box r i j < 1)).map
      fun j => ⟨i, j, rijMag box r i j, rijHat box r i j⟩

/-- The result tuple `(total, f, pairs)` of `force`. -/
structure ForceResult (n : ℕ) where
  total : PotentialType
  f : Fin n → Vec3
  pairs : List (PairRecord n)

/-- `force ( box, a, r )` with its precondition `assert d==3` modelled as an
`Except`: on a coordinate array whose second axis is not 3 it fails with the
dimension error before producing any output. -/
def force (box a : ℝ) {n d : ℕ} (r : Fin n → Fin d → ℝ) :
    Except String (ForceResult n) :=
  if h : d = 3 then
    Except.ok ⟨forceTotal box a (fun i c => r i (Fin.cast h.symm c)),
               forceArr box a (fun i c => r i (Fin.cast h.symm c)),
               pairsList box (fun i c => r i (Fin.cast h.symm c))⟩
  else Except.error "Dimension error in force"

/-- The two sequential assignments
`v[i,:] = v[i,:] + 0.5*vij; v[j,:] = v[j,:] - 0.5*vij` shared by both
thermostats, with `d` standing for `0.5*vij`. -/
def kick {n : ℕ} (v : Fin n → Vec3) (i j : Fin n) (d : Vec3) : Fin n → Vec3 :=
  let v1 := Function.update v i (fun c => v i c + d c)
  Function.update v1 j (fun c => v1 j c - d c)

/-- One iteration of the loop of `lowe`: the Bernoulli gate `zeta<gamma_step`
and, on collision, the momentum-conserving exchange along `rij_hat`.
`zeta` is the `np.random.rand()` draw and `g` the `np.random.randn()` draw. -/
def lowePair (temperature gamma_step : ℝ) {n : ℕ} (rec : PairRecord n)
    (zeta g : ℝ) (v : Fin n → Vec3) : Fin n → Vec3 :=
  if zeta < gamma_step then
    let v_old := dot (fun c => v rec.i c - v rec.j c) rec.rij_hat
    let v_new := Real.sqrt (2 * temperature) * g
    kick v rec.i rec.j (fun c => 0.5 * ((v_new - v_old) * rec.rij_hat c))
  else v

/-- One iteration of the loop of `shardlow`: two half steps, each re-reading
the current velocities; `g` is the `np.random.randn()` draw. -/
def shardlowPair (temperature gamma_step : ℝ) {n : ℕ} (rec : PairRecord n)
    (g : ℝ) (v : Fin n → Vec3) : Fin n → Vec3 :=
  let wgt := 1 - rec.rij_mag
  let sqrt_prob := Real.sqrt gamma_step * wgt
  let prob := sqrt_prob ^ 2
  let v_new := Real.sqrt (2 * temperature) * g
  let v_old1 := dot (fun c => v rec.i c - v rec.j c) rec.rij_hat
  let vh := kick v rec.i rec.j
    (fun c => 0.5 * ((sqrt_prob * v_new - prob * v_old1) * rec.rij_hat c))
  let v_old2 := dot (fun c => vh rec.i c - vh rec.j c) rec.rij_hat
  kick vh rec.i rec.j
    (fun c => 0.5 * ((sqrt_prob * v_new - prob * v_old2) * rec.rij_hat c / (1 + prob)))

/-- `lowe ( box, temperature, gamma_step, v, pairs )`: sequential fold of
`lowePair` over the randomly permuted pair sequence; each step carries the
pair record together with its two random draws.  `box` is unused, exactly as
in the source. -/
def lowe (box temperature gamma_step : ℝ) {n : ℕ} (v : Fin n → Vec3)
    (steps : List (PairRecord n × ℝ × ℝ)) : Fin n → Vec3 :=
  steps.foldl (fun vcur s => lowePair temperature gamma_step s.1 s.2.1 s.2.2 vcur) v

/-- `shardlow ( box, temperature, gamma_step, v, pairs )`: sequential fold of
`shardlowPair`; each step carries the pair record with its normal draw.
`box` is unused, exactly as in the source. -/
def shardlow (box temperature gamma_step : ℝ) {n : ℕ} (v : Fin n → Vec3)
    (steps : List (PairRecord n × ℝ)) : Fin n → Vec3 :=
  steps.foldl (fun vcur s => shardlowPair temperature gamma_step s.1 s.2 vcur) v

/-- `p_approx ( a, rho, temperature )`: Groot-Warren / Liyana-Arachchi et al.
approximate equation of state.  `np.polyval(b,a)` is the Horner evaluation of
the coefficient list `b`. -/
def p_approx (a rho temperature : ℝ) : ℝ :=
  let c1 : ℝ := 0.0802
  let c2 : ℝ := 0.7787
  let b2 := (((1.705e-8 * a + -2.585e-6) * a + 1.556e-4) * a + -4.912e-3) * a + 9.755e-2
  let alpha := b2 / (1 + rho ^ 3) + (c1 * rho ^ 2) / (1 + c2 * rho ^ 2)
  rho * temperature + alpha * a * rho ^ 2

/-- Concrete input for the Laplacian cutoff check: two particles separated by
1.5 in sigma units (out of range) in a box of edge 4. -/
def rC2 : Fin 2 → Vec3 := ![![0, 0, 0], ![3 / 8, 0, 0]]

/-- Concrete input for the periodic-translation check: two particles with
reduced separation exactly 1/2 along the first axis. -/
def rC7a : Fin 2 → Vec3 := ![![1 / 4, 0, 0], ![-(1 / 4), 0, 0]]

/-- `rC7a` with particle 0 translated by one box length along the first
axis. -/
def rC7b : Fin 2 → Vec3 := ![![5 / 4, 0, 0], ![-(1 / 4), 0, 0]]

/-- The integer offsets taking `rC7a` to `rC7b`. -/
def offC7 : Fin 2 → Fin 3 → ℤ := ![![1, 0, 0], ![0, 0, 0]]

/-- Concrete two-particle configuration used by witnesses (separation 1/4
along the first axis, no half-integer reduced separations). -/
def rW : Fin 2 → Vec3 := ![![0, 0, 0], ![1 / 4, 0, 0]]

/-- Concrete pair record on one particle, used by witnesses. -/
def recW : PairRecord 1 := ⟨0, 0, 0, fun _ => 0⟩

/-- Concrete velocity array on one particle, used by witnesses. -/
def vW : Fin 1 → Vec3 := fun _ _ => 0

/-! ## Helper lemmas -/

theorem inRange_iff_mag_lt_one (box : ℝ) {n : ℕ} (r : Fin n → Vec3) (i j : Fin n) :
    inRange box r i j ↔ rijMag box r i j < 1 := by
  unfold inRange rijMag
  rw [Real.sqrt_lt' one_pos, one_pow]

theorem kick_same {n : ℕ} (v : Fin n → Vec3) (i : Fin n) (d : Vec3) :
    kick v i i d = v := by
  show Function.update (Function.update v i fun c => v i c + d c) i
      (fun c => (Function.update v i fun c => v i c + d c) i c - d c) = v
  rw [Function.update_idem]
  have h1 : (fun c => (Function.update v i fun c => v i c + d c) i c - d c) = v i := by
    funext c
    rw [Function.update_same]
    ring
  rw [h1, Function.update_eq_self]

theorem kick_apply_left {n : ℕ} (v : Fin n → Vec3) {i j : Fin n} (d : Vec3)
    (hij : i ≠ j) (c : Fin 3) : kick v i j d i c = v i c + d c := by
  unfold kick
  rw [Function.update_noteq hij, Function.update_same]

theorem kick_apply_right {n : ℕ} (v : Fin n → Vec3) {i j : Fin n} (d : Vec3)
    (hij : i ≠ j) (c : Fin 3) : kick v i j d j c = v j c - d c := by
  unfold kick
  rw [Function.update_same, Function.update_noteq (Ne.symm hij)]

theorem kick_apply_other {n : ℕ} (v : Fin n → Vec3) {i j k : Fin n} (d : Vec3)
    (hki : k ≠ i) (hkj : k ≠ j) (c : Fin 3) : kick v i j d k c = v k c := by
  unfold kick
  rw [Function.update_noteq hkj, Function.update_noteq hki]

theorem kick_pair_sum {n : ℕ} (v : Fin n → Vec3) (i j : Fin n) (d : Vec3) (c : Fin 3) :
    kick v i j d i c + kick v i j d j c = v i c + v j c := by
  by_cases hij : i = j
  · subst hij
    rw [kick_same]
  · rw [kick_apply_left v d hij c, kick_apply_right v d hij c]
    ring

theorem kick_sum {n : ℕ} (v : Fin n → Vec3) (i j : Fin n) (d : Vec3) (c : Fin 3) :
    ∑ k, kick v i j d k c = ∑ k, v k c := by
  by_cases hij : i = j
  · subst hij
    rw [kick_same]
  · have key : ∀ k, kick v i j d k c
        = v k c + (if k = i then d c else 0) - (if k = j then d c else 0) := by
      intro k
      by_cases hki : k = i
      · subst hki
        rw [kick_apply_left v d hij c, if_pos rfl, if_neg hij]
        ring
      · by_cases hkj : k = j
        · subst hkj
          rw [kick_apply_right v d hij c, if_neg hki, if_pos rfl]
          ring
        · rw [kick_apply_other v d hki hkj c, if_neg hki, if_neg hkj]
          ring
    simp only [key]
    rw [Finset.sum_sub_distrib, Finset.sum_add_distrib,
      Finset.sum_ite_eq' Finset.univ i (fun _ => d c),
      Finset.sum_ite_eq' Finset.univ j (fun _ => d c)]
    simp

theorem kick_zero {n : ℕ} (v : Fin n → Vec3) (i j : Fin n) (d : Vec3)
    (hd : ∀ c, d c = 0) : kick v i j d = v := by
  have h1 : (fun c => v i c + d c) = v i := by
    funext c
    rw [hd c]
    ring
  have h2 : (fun c => v j c - d c) = v j := by
    funext c
    rw [hd c]
    ring
  show Function.update (Function.update v i fun c => v i c + d c) j
      (fun c => (Function.update v i fun c => v i c + d c) j c - d c) = v
  rw [h1, Function.update_eq_self, h2, Function.update_eq_self]

theorem lowePair_pair_sum (temperature gamma_step : ℝ) {n : ℕ} (rec : PairRecord n)
    (zeta g : ℝ) (v : Fin n → Vec3) (c : Fin 3) :
    lowePair temperature gamma_step rec zeta g v rec.i c
      + lowePair temperature gamma_step rec zeta g v rec.j c
      = v rec.i c + v rec.j c := by
  unfold lowePair
  split
  · exact kick_pair_sum v rec.i rec.j _ c
  · rfl

theorem lowePair_sum (temperature gamma_step : ℝ) {n : ℕ} (rec : PairRecord n)
    (zeta g : ℝ) (v : Fin n → Vec3) (c : Fin 3) :
    ∑ k, lowePair temperature gamma_step rec zeta g v k c = ∑ k, v k c := by
  unfold lowePair
  split
  · exact kick_sum v rec.i rec.j _ c
  · rfl

theorem shardlowPair_eq_kick (temperature gamma_step : ℝ) {n : ℕ} (rec : PairRecord n)
    (g : ℝ) (v : Fin n → Vec3) :
    ∃ d1 d2 : Vec3, shardlowPair temperature gamma_step rec g v
      = kick (kick v rec.i rec.j d1) rec.i rec.j d2 :=
  ⟨_, _, rfl⟩

theorem shardlowPair_pair_sum (temperature gamma_step : ℝ) {n : ℕ} (rec : PairRecord n)
    (g : ℝ) (v : Fin n → Vec3) (c : Fin 3) :
    shardlowPair temperature gamma_step rec g v rec.i c
      + shardlowPair temperature gamma_step rec g v rec.j c
      = v rec.i c + v rec.j c := by
  obtain ⟨d1, d2, hd⟩ := shardlowPair_eq_kick temperature gamma_step rec g v
  rw [hd, kick_pair_sum, kick_pair_sum]

theorem shardlowPair_sum (temperature gamma_step : ℝ) {n : ℕ} (rec : PairRecord n)
    (g : ℝ) (v : Fin n → Vec3) (c : Fin 3) :
    ∑ k, shardlowPair temperature gamma_step rec g v k c = ∑ k, v k c := by
  obtain ⟨d1, d2, hd⟩ := shardlowPair_eq_kick temperature gamma_step rec g v
  rw [hd, kick_sum, kick_sum]

theorem lowe_sum (box temperature gamma_step : ℝ) {n : ℕ} (v : Fin n → Vec3)
    (steps : List (PairRecord n × ℝ × ℝ)) (c : Fin 3) :
    ∑ k, lowe box temperature gamma_step v steps k c = ∑ k, v k c := by
  induction steps generalizing v with
  | nil => rfl
  | cons s t ih =>
    show ∑ k, lowe box temperature gamma_step
        (lowePair temperature gamma_step s.1 s.2.1 s.2.2 v) t k c = ∑ k, v k c
    rw [ih, lowePair_sum]

theorem shardlow_sum (box temperature gamma_step : ℝ) {n : ℕ} (v : Fin n → Vec3)
    (steps : List (PairRecord n × ℝ)) (c : Fin 3) :
    ∑ k, shardlow box temperature gamma_step v steps k c = ∑ k, v k c := by
  induction steps generalizing v with
  | nil => rfl
  | cons s t ih =>
    show ∑ k, shardlow box temperature gamma_step
        (shardlowPair temperature gamma_step s.1 s.2 v) t k c = ∑ k, v k c
    rw [ih, shardlowPair_sum]

theorem fcontrib_antisymm (box : ℝ) {n : ℕ} (r : Fin n → Vec3) (k l : Fin n) :
    fcontrib box r k l = fun c => -(fcontrib box r l k c) := by
  funext c
  rcases lt_trichotomy k l with h | h | h
  · simp [fcontrib, h, lt_asymm h]
  · subst h
    simp [fcontrib, lt_irrefl]
  · simp [fcontrib, h, lt_asymm h]

theorem forceArr_eq_sum_fcontrib (box a : ℝ) {n : ℕ} (r : Fin n → Vec3)
    (k : Fin n) (c : Fin 3) :
    forceArr box a r k c = (∑ l, fcontrib box r k l c) * a := by
  have key : ∀ l, fcontrib box r k l c
      = (if k < l then fij box r k l c else 0)
        - (if l < k then fij box r l k c else 0) := by
    intro l
    rcases lt_trichotomy k l with h | h | h
    · simp [fcontrib, h, lt_asymm h]
    · subst h
      simp [fcontrib, lt_irrefl]
    · simp [fcontrib, h, lt_asymm h]
  unfold forceArr
  congr 1
  rw [Finset.sum_filter, Finset.sum_filter]
  simp only [key]
  rw [Finset.sum_sub_distrib]

theorem forceArr_total_zero (box a : ℝ) {n : ℕ} (r : Fin n → Vec3) (c : Fin 3) :
    ∑ k, forceArr box a r k c = 0 := by
  have hS : ∑ k : Fin n, ∑ l : Fin n, fcontrib box r k l c = 0 := by
    have h2 : ∑ k : Fin n, ∑ l : Fin n, fcontrib box r k l c
        = ∑ k : Fin n, ∑ l : Fin n, -(fcontrib box r l k c) :=
      Finset.sum_congr rfl fun k _ => Finset.sum_congr rfl fun l _ =>
        congrFun (fcontrib_antisymm box r k l) c
    have h3 : (∑ k : Fin n, ∑ l : Fin n, -(fcontrib box r l k c))
        = -(∑ k : Fin n, ∑ l : Fin n, fcontrib box r k l c) := by
      rw [Finset.sum_comm]
      simp [Finset.sum_neg_distrib]
    have h4 := h2.trans h3
    linarith
  calc ∑ k, forceArr box a r k c
      = ∑ k, (∑ l, fcontrib box r k l c) * a :=
        Finset.sum_congr rfl fun k _ => forceArr_eq_sum_fcontrib box a r k c
    _ = (∑ k : Fin n, ∑ l : Fin n, fcontrib box r k l c) * a := by
        rw [Finset.sum_mul]
    _ = 0 := by rw [hS, zero_mul]

theorem pairPot_ite (box : ℝ) {n : ℕ} (r : Fin n → Vec3) (i j : Fin n) :
    (if i < j then pairPot box r i j else 0)
      = if i < j ∧ rijMag box r i j < 1
        then 0.5 * (1 - rijMag box r i j) ^ 2 else 0 := by
  by_cases h1 : i < j <;> by_cases h2 : inRange box r i j <;>
    simp [pairPot, wij, h1, h2, ← inRange_iff_mag_lt_one]

theorem pairVir_ite (box : ℝ) {n : ℕ} (r : Fin n → Vec3) (i j : Fin n) :
    (if i < j then pairVir box r i j else 0)
      = if i < j ∧ rijMag box r i j < 1
        then (1 - rijMag box r i j) * rijMag box r i j else 0 := by
  by_cases h1 : i < j <;> by_cases h2 : inRange box r i j <;>
    simp [pairVir, wij, h1, h2, ← inRange_iff_mag_lt_one]

theorem rint_zero : rint 0 = 0 := by
  unfold rint
  norm_num

theorem rint_half : rint (1 / 2 : ℝ) = 0 := by
  unfold rint
  have h : ⌊(1 / 2 : ℝ)⌋ = 0 := by norm_num
  rw [h]
  norm_num

theorem rint_three_halves : rint (3 / 2 : ℝ) = 2 := by
  unfold rint
  have h : ⌊(3 / 2 : ℝ)⌋ = 1 := by norm_num [Int.floor_eq_iff]
  rw [h]
  norm_num

theorem rint_neg_three_eighths : rint (-(3 / 8) : ℝ) = 0 := by
  unfold rint
  have h : ⌊(-(3 / 8) : ℝ)⌋ = -1 := by norm_num [Int.floor_eq_iff]
  rw [h]
  norm_num

theorem rint_add_int (x : ℝ) (m : ℤ) (h : Int.fract x ≠ 1 / 2) :
    rint (x + m) = rint x + m := by
  unfold rint
  rw [Int.floor_add_int]
  have hf : x + (m : ℝ) - ((⌊x⌋ + m : ℤ) : ℝ) = x - (⌊x⌋ : ℝ) := by
    push_cast
    ring
  rw [hf]
  by_cases h1 : x - (⌊x⌋ : ℝ) < 1 / 2
  · rw [if_pos h1, if_pos h1]
  · by_cases h2 : 1 / 2 < x - (⌊x⌋ : ℝ)
    · rw [if_neg h1, if_neg h1, if_pos h2, if_pos h2]
      ring
    · exfalso
      apply h
      rw [← Int.self_sub_floor]
      linarith

theorem sub_rint_sq_of_fract_half (y : ℝ) (hy : Int.fract y = 1 / 2) :
    (y - rint y) ^ 2 = 1 / 4 := by
  have hy' : y - (⌊y⌋ : ℝ) = 1 / 2 := by
    rw [Int.self_sub_floor, hy]
  unfold rint
  rw [hy']
  rw [if_neg (by norm_num), if_neg (by norm_num)]
  by_cases he : Even ⌊y⌋
  · rw [if_pos he, hy']
    norm_num
  · rw [if_neg he]
    have hv : y - ((⌊y⌋ + 1 : ℤ) : ℝ) = -(1 / 2) := by
      push_cast
      linarith
    rw [hv]
    norm_num

theorem sub_rint_sq_add_int (x : ℝ) (m : ℤ) :
    (x + m - rint (x + m)) ^ 2 = (x - rint x) ^ 2 := by
  by_cases h : Int.fract x = 1 / 2
  · have hm : Int.fract (x + m) = 1 / 2 := by
      rw [Int.fract_add_int]
      exact h
    rw [sub_rint_sq_of_fract_half (x + m) hm, sub_rint_sq_of_fract_half x h]
  · rw [rint_add_int x m h]
    push_cast
    ring

theorem rijSq_translate (box : ℝ) {n : ℕ} (r : Fin n → Vec3)
    (off : Fin n → Fin 3 → ℤ) (i j : Fin n) :
    rijSq box (fun i c => r i c + (off i c : ℝ)) i j = rijSq box r i j := by
  unfold rijSq wrapped
  refine Finset.sum_congr rfl fun c _ => ?_
  have harg : r i c + (off i c : ℝ) - (r j c + (off j c : ℝ))
      = r i c - r j c + ((off i c - off j c : ℤ) : ℝ) := by
    push_cast
    ring
  rw [harg, mul_pow, mul_pow, sub_rint_sq_add_int]

theorem wij_translate (box : ℝ) {n : ℕ} (r : Fin n → Vec3)
    (off : Fin n → Fin 3 → ℤ) (i j : Fin n) :
    wij box (fun i c => r i c + (off i c : ℝ)) i j = wij box r i j := by
  unfold wij inRange rijMag
  rw [rijSq_translate]

theorem potSum_translate (box : ℝ) {n : ℕ} (r : Fin n → Vec3)
    (off : Fin n → Fin 3 → ℤ) :
    potSum box (fun i c => r i c + (off i c : ℝ)) = potSum box r := by
  unfold potSum pairPot
  exact Finset.sum_congr rfl fun i _ => Finset.sum_congr rfl fun j _ => by
    rw [wij_translate]

theorem virSum_translate (box : ℝ) {n : ℕ} (r : Fin n → Vec3)
    (off : Fin n → Fin 3 → ℤ) :
    virSum box (fun i c => r i c + (off i c : ℝ)) = virSum box r := by
  unfold virSum pairVir rijMag
  exact Finset.sum_congr rfl fun i _ => Finset.sum_congr rfl fun j _ => by
    rw [wij_translate, rijSq_translate]

theorem wrapped_translate (box : ℝ) {n : ℕ} (r : Fin n → Vec3)
    (off : Fin n → Fin 3 → ℤ) (i j : Fin n)
    (h : ∀ i j c, Int.fract (r i c - r j c) ≠ 1 / 2) :
    wrapped box (fun i c => r i c + (off i c : ℝ)) i j = wrapped box r i j := by
  funext c
  unfold wrapped
  have harg : r i c + (off i c : ℝ) - (r j c + (off j c : ℝ))
      = r i c - r j c + ((off i c - off j c : ℤ) : ℝ) := by
    push_cast
    ring
  rw [harg, rint_add_int _ _ (h i j c)]
  push_cast
  ring

theorem forceArr_translate (box a : ℝ) {n : ℕ} (r : Fin n → Vec3)
    (off : Fin n → Fin 3 → ℤ)
    (h : ∀ i j c, Int.fract (r i c - r j c) ≠ 1 / 2) :
    forceArr box a (fun i c => r i c + (off i c : ℝ)) = forceArr box a r := by
  have hw : ∀ i j : Fin n,
      wrapped box (fun i c => r i c + (off i c : ℝ)) i j = wrapped box r i j :=
    fun i j => wrapped_translate box r off i j h
  have hs : ∀ i j : Fin n,
      rijSq box (fun i c => r i c + (off i c : ℝ)) i j = rijSq box r i j :=
    fun i j => rijSq_translate box r off i j
  funext k c
  simp only [forceArr, fij, rijHat, wij, inRange, rijMag, hw, hs]

theorem rijSq_rC2 : rijSq 4 rC2 0 1 = 9 / 4 := by
  have e00 : rC2 0 0 = 0 := by simp [rC2]
  have e01 : rC2 0 1 = 0 := by simp [rC2]
  have e02 : rC2 0 2 = 0 := by simp [rC2]
  have e10 : rC2 1 0 = 3 / 8 := by simp [rC2]
  have e11 : rC2 1 1 = 0 := by simp [rC2]
  have e12 : rC2 1 2 = 0 := by simp [rC2]
  unfold rijSq wrapped
  rw [Fin.sum_univ_three, e00, e01, e02, e10, e11, e12]
  rw [show (0 : ℝ) - 3 / 8 = -(3 / 8) by norm_num,
    show (0 : ℝ) - 0 = 0 by norm_num, rint_neg_three_eighths, rint_zero]
  norm_num

theorem rijMag_rC2 : rijMag 4 rC2 0 1 = 3 / 2 := by
  unfold rijMag
  rw [rijSq_rC2, show (9 / 4 : ℝ) = (3 / 2) ^ 2 by norm_num,
    Real.sqrt_sq (by norm_num : (0 : ℝ) ≤ 3 / 2)]

theorem lapSum_rC2 : lapSum 4 rC2 = 5 / 3 := by
  unfold lapSum
  rw [Fin.sum_univ_two,
    show Finset.univ.filter (fun j => (0 : Fin 2) < j) = {1} from by decide,
    show Finset.univ.filter (fun j => (1 : Fin 2) < j) = ∅ from by decide,
    Finset.sum_singleton, Finset.sum_empty]
  unfold pairLap
  rw [rijMag_rC2]
  norm_num

theorem wrapped_rC7a_0 : wrapped (4 / 5) rC7a 0 1 0 = 2 / 5 := by
  have e0 : rC7a 0 0 = 1 / 4 := by simp [rC7a]
  have e1 : rC7a 1 0 = -(1 / 4) := by simp [rC7a]
  unfold wrapped
  rw [e0, e1, show (1 / 4 : ℝ) - -(1 / 4) = 1 / 2 by norm_num, rint_half]
  norm_num

theorem wrapped_rC7a_1 : wrapped (4 / 5) rC7a 0 1 1 = 0 := by
  have e0 : rC7a 0 1 = 0 := by simp [rC7a]
  have e1 : rC7a 1 1 = 0 := by simp [rC7a]
  unfold wrapped
  rw [e0, e1, show (0 : ℝ) - 0 = 0 by norm_num, rint_zero]
  norm_num

theorem wrapped_rC7a_2 : wrapped (4 / 5) rC7a 0 1 2 = 0 := by
  have e0 : rC7a 0 2 = 0 := by simp [rC7a]
  have e1 : rC7a 1 2 = 0 := by simp [rC7a]
  unfold wrapped
  rw [e0, e1, show (0 : ℝ) - 0 = 0 by norm_num, rint_zero]
  norm_num

theorem wrapped_rC7b_0 : wrapped (4 / 5) rC7b 0 1 0 = -(2 / 5) := by
  have e0 : rC7b 0 0 = 5 / 4 := by simp [rC7b]
  have e1 : rC7b 1 0 = -(1 / 4) := by simp [rC7b]
  unfold wrapped
  rw [e0, e1, show (5 / 4 : ℝ) - -(1 / 4) = 3 / 2 by norm_num, rint_three_halves]
  norm_num

theorem wrapped_rC7b_1 : wrapped (4 / 5) rC7b 0 1 1 = 0 := by
  have e0 : rC7b 0 1 = 0 := by simp [rC7b]
  have e1 : rC7b 1 1 = 0 := by simp [rC7b]
  unfold wrapped
  rw [e0, e1, show (0 : ℝ) - 0 = 0 by norm_num, rint_zero]
  norm_num

theorem wrapped_rC7b_2 : wrapped (4 / 5) rC7b 0 1 2 = 0 := by
  have e0 : rC7b 0 2 = 0 := by simp [rC7b]
  have e1 : rC7b 1 2 = 0 := by simp [rC7b]
  unfold wrapped
  rw [e0, e1, show (0 : ℝ) - 0 = 0 by norm_num, rint_zero]
  norm_num

theorem rijSq_rC7a : rijSq (4 / 5) rC7a 0 1 = 4 / 25 := by
  unfold rijSq
  rw [Fin.sum_univ_three, wrapped_rC7a_0, wrapped_rC7a_1, wrapped_rC7a_2]
  norm_num

theorem rijSq_rC7b : rijSq (4 / 5) rC7b 0 1 = 4 / 25 := by
  unfold rijSq
  rw [Fin.sum_univ_three, wrapped_rC7b_0, wrapped_rC7b_1, wrapped_rC7b_2]
  norm_num

theorem rijMag_rC7a : rijMag (4 / 5) rC7a 0 1 = 2 / 5 := by
  unfold rijMag
  rw [rijSq_rC7a, show (4 / 25 : ℝ) = (2 / 5) ^ 2 by norm_num,
    Real.sqrt_sq (by norm_num : (0 : ℝ) ≤ 2 / 5)]

theorem rijMag_rC7b : rijMag (4 / 5) rC7b 0 1 = 2 / 5 := by
  unfold rijMag
  rw [rijSq_rC7b, show (4 / 25 : ℝ) = (2 / 5) ^ 2 by norm_num,
    Real.sqrt_sq (by norm_num : (0 : ℝ) ≤ 2 / 5)]

theorem forceArr_rC7a_00 : forceArr (4 / 5) 1 rC7a 0 0 = 3 / 5 := by
  unfold forceArr
  rw [show Finset.univ.filter (fun j => (0 : Fin 2) < j) = {1} from by decide,
    show Finset.univ.filter (fun i : Fin 2 => i < 0) = ∅ from by decide,
    Finset.sum_singleton, Finset.sum_empty]
  unfold fij wij inRange rijHat
  rw [rijSq_rC7a, rijMag_rC7a, wrapped_rC7a_0,
    if_pos (by norm_num : (4 / 25 : ℝ) < 1)]
  norm_num

theorem forceArr_rC7b_00 : forceArr (4 / 5) 1 rC7b 0 0 = -(3 / 5) := by
  unfold forceArr
  rw [show Finset.univ.filter (fun j => (0 : Fin 2) < j) = {1} from by decide,
    show Finset.univ.filter (fun i : Fin 2 => i < 0) = ∅ from by decide,
    Finset.sum_singleton, Finset.sum_empty]
  unfold fij wij inRange rijHat
  rw [rijSq_rC7b, rijMag_rC7b, wrapped_rC7b_0,
    if_pos (by norm_num : (4 / 25 : ℝ) < 1)]
  norm_num

/-! ## Claim theorems -/

/-- C7 (counterexample to the claim as stated): `rC7b` is `rC7a` translated
by the integer offsets `offC7`, but the force arrays differ: the reduced
separation is exactly `1/2`, and `np.rint` sends `1/2 ↦ 0` but `3/2 ↦ 2`
(ties to even), flipping the sign of the wrapped separation and hence of the
force on each particle. -/
theorem C7_translation_counterexample :
    (∀ i c, rC7b i c = rC7a i c + ((offC7 i c : ℤ) : ℝ)) ∧
    forceArr (4 / 5) 1 rC7b ≠ forceArr (4 / 5) 1 rC7a := by
  constructor
  · intro i c
    fin_cases i <;> fin_cases c <;> simp [rC7a, rC7b, offC7] <;> norm_num
  · intro hEq
    have h := congrFun (congrFun hEq 0) 0
    rw [forceArr_rC7b_00, forceArr_rC7a_00] at h
    norm_num at h

/-- C7 (amended): translating every particle by an integer number of box
lengths along any axis leaves the total potential and total virial
unchanged; the force array is also unchanged provided no component of any
pairwise reduced separation lies exactly halfway between two integers
(fractional part `1/2`), the tie case on which `np.rint`'s round-half-even
rule makes the wrapped separation flip sign. -/
theorem C7_periodic_translation_invariance (box a : ℝ) {n : ℕ}
    (r : Fin n → Vec3) (off : Fin n → Fin 3 → ℤ) :
    (forceTotal box a (fun i c => r i c + (off i c : ℝ))).pot
      = (forceTotal box a r).pot ∧
    (forceTotal box a (fun i c => r i c + (off i c : ℝ))).vir
      = (forceTotal box a r).vir ∧
    ((∀ i j c, Int.fract (r i c - r j c) ≠ 1 / 2) →
      forceArr box a (fun i c => r i c + (off i c : ℝ)) = forceArr box a r) := by
  refine ⟨?_, ?_, ?_⟩
  · show potSum box (fun i c => r i c + (off i c : ℝ)) * a = potSum box r * a
    rw [potSum_translate]
  · show virSum box (fun i c => r i c + (off i c : ℝ)) * a / 3
      = virSum box r * a / 3
    rw [virSum_translate]
  · exact forceArr_translate box a r off

/-- Witness for C7 (amended) at the concrete configuration `rW` translated
by one box length along every axis. -/
theorem C7_periodic_translation_invariance_witness :
    (forceTotal 1 1 (fun i c => rW i c + (((1 : ℤ) : ℝ)))).pot
      = (forceTotal 1 1 rW).pot ∧
    forceArr 1 1 (fun i c => rW i c + (((1 : ℤ) : ℝ))) = forceArr 1 1 rW :=
  ⟨(C7_periodic_translation_invariance 1 1 rW (fun _ _ => 1)).1,
   (C7_periodic_translation_invariance 1 1 rW (fun _ _ => 1)).2.2
     (by
      intro i j c
      fin_cases i <;> fin_cases j <;> fin_cases c <;>
        norm_num [rW, Int.fract])⟩

/-- C2 (refuting evidence): at `box = 4`, `a = 1` and the two-particle
configuration `rC2`, the unique pair has minimum-image distance `3/2 ≥ 1`
(out of range), yet the total Laplacian returned by `force` is `10/3`, not
the `0` demanded by the claim: the source computes `lap = 3.0-2.0/rij_mag`
without the `in_range` mask, so out-of-range pairs contribute. -/
theorem C2_lap_counts_out_of_range_pairs :
    (1 : ℝ) ≤ rijMag 4 rC2 0 1 ∧ (forceTotal 4 1 rC2).lap = 10 / 3 := by
  constructor
  · rw [rijMag_rC2]
    norm_num
  · show lapSum 4 rC2 * 1 * 2 = 10 / 3
    rw [lapSum_rC2]
    norm_num

/-- C1: for every `box > 0`, `a > 0` and position array, the pair
contributions to the force are antisymmetric (the vector added to particle
`i` for pair `(i,j)` is the exact negative of the vector subtracted from
particle `j`), the force array is the scaled sum of these contributions, and
the componentwise total of the returned forces over all particles is zero. -/
theorem C1_antisymmetry_total_force_zero (box a : ℝ) {n : ℕ} (r : Fin n → Vec3)
    (hbox : 0 < box) (ha : 0 < a) :
    (∀ k l, fcontrib box r k l = fun c => -(fcontrib box r l k c)) ∧
    (∀ k c, forceArr box a r k c = (∑ l, fcontrib box r k l c) * a) ∧
    (∀ c, ∑ k, forceArr box a r k c = 0) :=
  ⟨fun k l => fcontrib_antisymm box r k l,
   fun k c => forceArr_eq_sum_fcontrib box a r k c,
   fun c => forceArr_total_zero box a r c⟩

/-- Witness for C1 at `box = 1`, `a = 1` and a concrete two-particle
configuration. -/
theorem C1_antisymmetry_total_force_zero_witness :
    (0 : ℝ) < 1 ∧ (0 : ℝ) < 1 ∧ ∀ c, ∑ k, forceArr 1 1 rW k c = 0 :=
  ⟨one_pos, one_pos,
   (C1_antisymmetry_total_force_zero 1 1 rW one_pos one_pos).2.2⟩

/-- C3: the total potential returned by `force` is `a` times the sum over
pairs with minimum-image distance `< 1` of `0.5*(1-r)^2`, and the total
virial is `a/3` times the sum over the same pairs of `(1-r)*r`. -/
theorem C3_pot_vir_sums (box a : ℝ) {n : ℕ} (r : Fin n → Vec3) :
    (forceTotal box a r).pot
      = a * ∑ p ∈ Finset.univ.filter
          (fun p : Fin n × Fin n => p.1 < p.2 ∧ rijMag box r p.1 p.2 < 1),
          0.5 * (1 - rijMag box r p.1 p.2) ^ 2 ∧
    (forceTotal box a r).vir
      = a / 3 * ∑ p ∈ Finset.univ.filter
          (fun p : Fin n × Fin n => p.1 < p.2 ∧ rijMag box r p.1 p.2 < 1),
          (1 - rijMag box r p.1 p.2) * rijMag box r p.1 p.2 := by
  have hpot : potSum box r
      = ∑ i : Fin n, ∑ j : Fin n,
          if i < j ∧ rijMag box r i j < 1
          then 0.5 * (1 - rijMag box r i j) ^ 2 else 0 := by
    unfold potSum
    refine Finset.sum_congr rfl fun i _ => ?_
    rw [Finset.sum_filter]
    exact Finset.sum_congr rfl fun j _ => pairPot_ite box r i j
  have hvir : virSum box r
      = ∑ i : Fin n, ∑ j : Fin n,
          if i < j ∧ rijMag box r i j < 1
          then (1 - rijMag box r i j) * rijMag box r i j else 0 := by
    unfold virSum
    refine Finset.sum_congr rfl fun i _ => ?_
    rw [Finset.sum_filter]
    exact Finset.sum_congr rfl fun j _ => pairVir_ite box r i j
  have hsum1 : (∑ i : Fin n, ∑ j : Fin n,
        if i < j ∧ rijMag box r i j < 1
        then 0.5 * (1 - rijMag box r i j) ^ 2 else 0)
      = ∑ p ∈ Finset.univ.filter
          (fun p : Fin n × Fin n => p.1 < p.2 ∧ rijMag box r p.1 p.2 < 1),
          0.5 * (1 - rijMag box r p.1 p.2) ^ 2 := by
    rw [Finset.sum_filter, ← Finset.univ_product_univ, Finset.sum_product]
  have hsum2 : (∑ i : Fin n, ∑ j : Fin n,
        if i < j ∧ rijMag box r i j < 1
        then (1 - rijMag box r i j) * rijMag box r i j else 0)
      = ∑ p ∈ Finset.univ.filter
          (fun p : Fin n × Fin n => p.1 < p.2 ∧ rijMag box r p.1 p.2 < 1),
          (1 - rijMag box r p.1 p.2) * rijMag box r p.1 p.2 := by
    rw [Finset.sum_filter, ← Finset.univ_product_univ, Finset.sum_product]
  constructor
  · show potSum box r * a = _
    rw [hpot, hsum1]
    ring
  · show virSum box r * a / 3 = _
    rw [hvir, hsum2]
    ring

/-- C5: every single pair update of both `lowe` and `shardlow` leaves the
componentwise sum of the two affected particles' velocities unchanged, and
hence the total momentum of the whole velocity array is exactly unchanged,
for every pair record, every random draw, every permuted step sequence and
every `gamma_step`. -/
theorem C5_momentum_conservation (box temperature gamma_step : ℝ) {n : ℕ}
    (rec : PairRecord n) (zeta g : ℝ) (v : Fin n → Vec3)
    (steps : List (PairRecord n × ℝ × ℝ)) (stepsS : List (PairRecord n × ℝ))
    (c : Fin 3) :
    (lowePair temperature gamma_step rec zeta g v rec.i c
       + lowePair temperature gamma_step rec zeta g v rec.j c
       = v rec.i c + v rec.j c) ∧
    (∑ k, lowePair temperature gamma_step rec zeta g v k c = ∑ k, v k c) ∧
    (shardlowPair temperature gamma_step rec g v rec.i c
       + shardlowPair temperature gamma_step rec g v rec.j c
       = v rec.i c + v rec.j c) ∧
    (∑ k, shardlowPair temperature gamma_step rec g v k c = ∑ k, v k c) ∧
    (∑ k, lowe box temperature gamma_step v steps k c = ∑ k, v k c) ∧
    (∑ k, shardlow box temperature gamma_step v stepsS k c = ∑ k, v k c) :=
  ⟨lowePair_pair_sum temperature gamma_step rec zeta g v c,
   lowePair_sum temperature gamma_step rec zeta g v c,
   shardlowPair_pair_sum temperature gamma_step rec g v c,
   shardlowPair_sum temperature gamma_step rec g v c,
   lowe_sum box temperature gamma_step v steps c,
   shardlow_sum box temperature gamma_step v stepsS c⟩

/-- C6: with `gamma_step = 0` both thermostat pair updates are no-ops: the
Lowe-Andersen update never triggers a collision for any uniform draw
`zeta ≥ 0`, and the Shardlow update produces a zero velocity change for
every pair. -/
theorem C6_gamma_step_zero_noop (temperature zeta g : ℝ) {n : ℕ}
    (rec : PairRecord n) (v : Fin n → Vec3) :
    (0 ≤ zeta → lowePair temperature 0 rec zeta g v = v) ∧
    shardlowPair temperature 0 rec g v = v := by
  constructor
  · intro hz
    unfold lowePair
    rw [if_neg (not_lt.mpr hz)]
  · unfold shardlowPair
    simp only [Real.sqrt_zero, zero_mul, pow_two, mul_zero, zero_sub, neg_zero,
      sub_zero, zero_div, zero_add]
    rw [kick_zero _ _ _ _ (fun c => by norm_num), kick_zero _ _ _ _ (fun c => by norm_num)]

/-- C4: the `pairs` list returned by `force` contains a record exactly for
the unordered pairs whose minimum-image distance is strictly below 1, each
with `i < j` and carrying that pair's distance and unit vector, and the list
is strictly ordered by ascending `i` then ascending `j` (hence each pair
appears exactly once). -/
theorem C4_pair_list_characterization (box : ℝ) {n : ℕ} (r : Fin n → Vec3) :
    (∀ rec : PairRecord n, rec ∈ pairsList box r ↔
      (rec.i < rec.j ∧ rijMag box r rec.i rec.j < 1 ∧
       rec.rij_mag = rijMag box r rec.i rec.j ∧
       rec.rij_hat = rijHat box r rec.i rec.j)) ∧
    (pairsList box r).Pairwise
      (fun p q => p.i < q.i ∨ (p.i = q.i ∧ p.j < q.j)) := by
  constructor
  · intro rec
    unfold pairsList
    rw [List.mem_flatMap]
    constructor
    · rintro ⟨i, -, hmem⟩
      rw [List.mem_map] at hmem
      obtain ⟨j, hj, rfl⟩ := hmem
      rw [List.mem_filter] at hj
      have hcond : i < j ∧ rijSq box r i j < 1 := of_decide_eq_true hj.2
      exact ⟨hcond.1, (inRange_iff_mag_lt_one box r i j).mp hcond.2, rfl, rfl⟩
    · obtain ⟨pi, pj, pm, ph⟩ := rec
      rintro ⟨h1, h2, h3, h4⟩
      refine ⟨pi, List.mem_finRange _, ?_⟩
      rw [List.mem_map]
      refine ⟨pj, ?_, ?_⟩
      · rw [List.mem_filter]
        exact ⟨List.mem_finRange _,
          decide_eq_true ⟨h1, (inRange_iff_mag_lt_one box r pi pj).mpr h2⟩⟩
      · rw [show pm = rijMag box r pi pj from h3, show ph = rijHat box r pi pj from h4]
  · unfold pairsList
    rw [List.flatMap_def, List.pairwise_flatten]
    constructor
    · intro l hl
      rw [List.mem_map] at hl
      obtain ⟨i, -, rfl⟩ := hl
      rw [List.pairwise_map]
      refine List.Pairwise.imp ?_
        (List.Pairwise.filter _ (List.pairwise_lt_finRange n))
      intro a b hab
      exact Or.inr ⟨rfl, hab⟩
    · rw [List.pairwise_map]
      refine List.Pairwise.imp ?_ (List.pairwise_lt_finRange n)
      intro a b hab x hx y hy
      rw [List.mem_map] at hx hy
      obtain ⟨xj, -, rfl⟩ := hx
      obtain ⟨yj, -, rfl⟩ := hy
      exact Or.inl hab

/-- Witness for C6 at a concrete pair, velocity array and draw `zeta = 0`. -/
theorem C6_gamma_step_zero_noop_witness :
    (0 : ℝ) ≤ 0 ∧ lowePair 1 0 recW 0 0 vW = vW ∧ shardlowPair 1 0 recW 0 vW = vW :=
  ⟨le_refl 0, (C6_gamma_step_zero_noop 1 0 0 recW vW).1 (le_refl 0),
   (C6_gamma_step_zero_noop 1 0 0 recW vW).2⟩

/-- C8: with interaction strength `a = 0` the approximate pressure reduces to
the ideal-gas law `rho * temperature`. -/
theorem C8_p_approx_ideal_gas (rho temperature : ℝ) :
    p_approx 0 rho temperature = rho * temperature := by
  simp [p_approx]

/-- C9: on a coordinate array whose second axis is not 3, `force` fails with
the dimensionality error and produces no result (no potential, no force
array, no pair list). -/
theorem C9_dimension_error (box a : ℝ) {n d : ℕ} (r : Fin n → Fin d → ℝ)
    (hd : d ≠ 3) :
    force box a r = Except.error "Dimension error in force" := by
  unfold force
  rw [dif_neg hd]

/-- Witness for C9 at the concrete input `d = 2`, `n = 2`. -/
theorem C9_dimension_error_witness :
    (2 : ℕ) ≠ 3 ∧
    force (n := 2) (d := 2) 1 1 (fun _ _ => 0)
      = Except.error "Dimension error in force" :=
  ⟨by decide, C9_dimension_error 1 1 (fun _ _ => 0) (by decide)⟩

/-- C10: `lowe` and `shardlow` do not depend on the `box` argument: two runs
differing only in `box` produce identical velocity arrays. -/
theorem C10_box_independent (box1 box2 temperature gamma_step : ℝ) {n : ℕ}
    (v : Fin n → Vec3) (steps : List (PairRecord n × ℝ × ℝ))
    (stepsS : List (PairRecord n × ℝ)) :
    lowe box1 temperature gamma_step v steps
      = lowe box2 temperature gamma_step v steps ∧
    shardlow box1 temperature gamma_step v stepsS
      = shardlow box2 temperature gamma_step v stepsS :=
  ⟨rfl, rfl⟩

end

end DpdFast
